import Mathlib

/-!
Shallow embedding of `src/ll_protocol.c` / `src/ll_protocol.h`:
a byte-stuffing framing protocol with three control bytes (begin, reject, end),
a serializer (`ll_serialize`), a size query (`ll_sizeof_serialized`) and a
streaming frame scanner (`ll_deserialize`).

Bytes are modelled as `Nat` (the C `uint8_t` values, only compared for
equality); buffers as `List Nat`; null pointers as `Option`/`Bool` arguments;
the output buffer of `ll_deserialize` as the list of bytes written (writes are
always sequential at index `message_iter`, which the C code increments with
each write).
-/

namespace LLProtocol

/-- Status codes of `ll_protocol.h` (`ll_status_t`). -/
inductive ll_status_t where
  | LL_STATUS_SUCCESS
  | LL_STATUS_BAD_PARAMS
  | LL_STATUS_NO_MESSAGE
  | LL_STATUS_NO_ENOUGH_BYTES
  | LL_STATUS_MESSAGE_TOO_SHORT
  | LL_STATUS_MESSAGE_TOO_LONG
deriving DecidableEq, Repr

/-- Configuration of `ll_protocol.h` (`ll_message_info_t`): message size and the three control bytes. -/
structure ll_message_info_t where
  size : Nat
  begin_byte : Nat
  reject_byte : Nat
  end_byte : Nat
deriving DecidableEq, Repr

/-- The escape test of `ll_sizeof_serialized` / `ll_serialize`:
the byte collides with one of the three control bytes. -/
def isControl (m : ll_message_info_t) (b : Nat) : Bool :=
  b == m.begin_byte || b == m.end_byte || b == m.reject_byte

/-- Core of `ll_sizeof_serialized` (non-null `data`): the loop over
`i < msg_info.size` reading `data[i]`. -/
def ll_sizeof_serialized_core (m : ll_message_info_t) (data : List Nat) : Nat :=
  m.size + 2 + (List.range m.size).countP (fun i => isControl m (data.getD i 0))

/-- Full `ll_sizeof_serialized`: returns 0 when `data` is null. -/
def ll_sizeof_serialized (m : ll_message_info_t) (data : Option (List Nat)) : Nat :=
  match data with
  | none => 0
  | some d => ll_sizeof_serialized_core m d

/-- The bytes `ll_serialize` emits for one input byte: an escaped pair
`reject_byte, b` when `b` collides with a control byte, else `b` itself. -/
def escapeByte (m : ll_message_info_t) (b : Nat) : List Nat :=
  if isControl m b then [m.reject_byte, b] else [b]

/-- Core of `ll_serialize` (non-null arguments): the bytes written to
`data_out`, in order: `begin_byte`, the loop over `i < msg_info.size`
escaping `data_in[i]`, then `end_byte`. -/
def ll_serialize_core (m : ll_message_info_t) (data_in : List Nat) : List Nat :=
  m.begin_byte :: ((List.range m.size).flatMap (fun i => escapeByte m (data_in.getD i 0))
    ++ [m.end_byte])

/-- Full `ll_serialize`: writes nothing (`none`) when `data_in` is null or the
output buffer is absent; otherwise the written bytes. -/
def ll_serialize (m : ll_message_info_t) (data_in : Option (List Nat))
    (data_out_present : Bool) : Option (List Nat) :=
  match data_in, data_out_present with
  | some d, true => some (ll_serialize_core m d)
  | _, _ => none

/-- The local state of the `ll_deserialize` loop: flags, the count of payload
bytes written, the last byte read (the C `byte` variable, whose value at the
top of the next iteration becomes `previous_byte`), and the bytes written to
`data_out` so far (`message_iter` is the next write index). -/
structure ScanState where
  message_opened : Bool
  reject : Bool
  ignore_previous : Bool
  message_iter : Nat
  byte : Nat
  out : List Nat
deriving DecidableEq, Repr

/-- The state of `ll_deserialize` just before its loop:
`byte` initialized to `end_byte`, everything else cleared. -/
def initState (m : ll_message_info_t) : ScanState :=
  { message_opened := false, reject := false, ignore_previous := false,
    message_iter := 0, byte := m.end_byte, out := [] }

/-- The loop of `ll_deserialize`, one constructor case per iteration.
Arguments: remaining bytes of the window, current index `i`, state.
`n` is `byte_stream_size` (used by the remainder computations).
Returns the status, the value stored in `*remainder`, and the bytes
written to `data_out`. -/
def ll_deserialize_loop (m : ll_message_info_t) (n : Nat) :
    List Nat → Nat → ScanState → ll_status_t × Nat × List Nat
  | [], _, s =>
    if s.message_opened then
      (.LL_STATUS_NO_ENOUGH_BYTES, n - s.message_iter - 1, s.out)
    else
      (.LL_STATUS_NO_MESSAGE, n, s.out)
  | b :: rest, i, s =>
    let previous_byte := s.byte
    let byte := b
    let message_opened :=
      if !s.message_opened && byte == m.begin_byte && previous_byte != m.reject_byte then
        true
      else s.message_opened
    if !message_opened then
      ll_deserialize_loop m n rest (i + 1)
        { s with message_opened := message_opened, byte := byte }
    else if s.message_iter == m.size then
      if byte == m.end_byte then
        (.LL_STATUS_SUCCESS, if i == n - 1 then 0 else i + 1, s.out)
      else
        (.LL_STATUS_MESSAGE_TOO_LONG, i, s.out)
    else if byte == m.end_byte && previous_byte != m.reject_byte
        && !s.ignore_previous && decide (s.message_iter < m.size) then
      (.LL_STATUS_MESSAGE_TOO_SHORT, i + 1, s.out)
    else if (byte != m.reject_byte && byte != m.begin_byte && byte != m.end_byte
          && previous_byte != m.reject_byte)
        || (byte != m.reject_byte && byte != m.begin_byte && byte != m.end_byte
          && s.ignore_previous) then
      ll_deserialize_loop m n rest (i + 1)
        { message_opened := message_opened, reject := s.reject, ignore_previous := false,
          message_iter := s.message_iter + 1, byte := byte, out := s.out ++ [byte] }
    else if s.reject then
      ll_deserialize_loop m n rest (i + 1)
        { message_opened := message_opened, reject := false,
          ignore_previous := if byte == m.reject_byte then true else s.ignore_previous,
          message_iter := s.message_iter + 1, byte := byte, out := s.out ++ [byte] }
    else if byte == m.reject_byte && (previous_byte != m.reject_byte || s.ignore_previous) then
      ll_deserialize_loop m n rest (i + 1)
        { message_opened := message_opened, reject := true, ignore_previous := false,
          message_iter := s.message_iter, byte := byte, out := s.out }
    else
      ll_deserialize_loop m n rest (i + 1)
        { s with message_opened := message_opened, byte := byte }

/-- Core of `ll_deserialize` (non-null arguments): run the loop over the whole
window from the initial state. -/
def ll_deserialize_run (m : ll_message_info_t) (byte_stream : List Nat) :
    ll_status_t × Nat × List Nat :=
  ll_deserialize_loop m byte_stream.length byte_stream 0 (initState m)

/-- Full `ll_deserialize` with nullable arguments: any absent argument gives
`LL_STATUS_BAD_PARAMS` with `*remainder` unwritten (`none`) and nothing
written to `data_out` (`none`). -/
def ll_deserialize (m : ll_message_info_t) (byte_stream : Option (List Nat))
    (data_out_present remainder_present : Bool) :
    ll_status_t × Option Nat × Option (List Nat) :=
  match byte_stream, data_out_present, remainder_present with
  | some bs, true, true =>
    let r := ll_deserialize_run m bs
    (r.1, some r.2.1, some r.2.2)
  | _, _, _ => (.LL_STATUS_BAD_PARAMS, none, none)

/-- The three control bytes are mutually distinct (the documented caller
invariant from `ll_protocol.h`). -/
def DistinctControls (m : ll_message_info_t) : Prop :=
  m.begin_byte ≠ m.end_byte ∧ m.begin_byte ≠ m.reject_byte ∧ m.end_byte ≠ m.reject_byte

instance (m : ll_message_info_t) : Decidable (DistinctControls m) := by
  unfold DistinctControls; infer_instance

/-- The escaped wire form of a payload (the serializer's loop output,
without the delimiters). -/
def wirePayload (m : ll_message_info_t) (P : List Nat) : List Nat :=
  P.flatMap (escapeByte m)

theorem map_getD_range (d : List Nat) :
    (List.range d.length).map (fun i => d.getD i 0) = d := by
  induction d with
  | nil => simp
  | cons a t ih =>
    simp only [List.length_cons, List.range_succ_eq_map, List.map_cons, List.map_map]
    simp only [List.getD_cons_zero, Function.comp_def, List.getD_cons_succ]
    rw [ih]

theorem flatMap_getD_range (f : Nat → List Nat) (d : List Nat) :
    (List.range d.length).flatMap (fun i => f (d.getD i 0)) = d.flatMap f := by
  have h := congrArg (fun l => l.flatMap f) (map_getD_range d)
  simpa [List.flatMap_map] using h

theorem countP_getD_range (p : Nat → Bool) (d : List Nat) :
    (List.range d.length).countP (fun i => p (d.getD i 0)) = d.countP p := by
  have h := congrArg (fun l => l.countP p) (map_getD_range d)
  simpa [List.countP_map, Function.comp_def] using h

theorem sizeof_core_eq (m : ll_message_info_t) (d : List Nat) (h : d.length = m.size) :
    ll_sizeof_serialized_core m d = m.size + 2 + d.countP (fun b => isControl m b) := by
  unfold ll_sizeof_serialized_core
  rw [← h, countP_getD_range]

theorem serialize_core_eq (m : ll_message_info_t) (d : List Nat) (h : d.length = m.size) :
    ll_serialize_core m d = m.begin_byte :: (wirePayload m d ++ [m.end_byte]) := by
  unfold ll_serialize_core wirePayload
  rw [← h, flatMap_getD_range]

theorem wirePayload_length (m : ll_message_info_t) (d : List Nat) :
    (wirePayload m d).length = d.length + d.countP (fun b => isControl m b) := by
  induction d with
  | nil => simp [wirePayload]
  | cons a t ih =>
    simp only [wirePayload, List.flatMap_cons, List.length_append, List.length_cons,
      List.countP_cons] at *
    by_cases h : isControl m a
    · simp [escapeByte, h, ih]; omega
    · simp [escapeByte, h, ih]; omega

theorem serialize_core_length (m : ll_message_info_t) (d : List Nat)
    (h : d.length = m.size) :
    (ll_serialize_core m d).length = ll_sizeof_serialized_core m d := by
  rw [serialize_core_eq m d h, sizeof_core_eq m d h]
  simp [wirePayload_length, h]
  omega

/-- Claim C2: with a payload of exactly `message_size` bytes, `ll_serialize` writes
exactly `ll_sizeof_serialized` bytes, and `ll_sizeof_serialized` is
`message_size + 2` plus the number of payload bytes equal to a control byte. -/
theorem serialize_writes_sizeof (m : ll_message_info_t) (d : List Nat)
    (h : d.length = m.size) :
    (ll_serialize_core m d).length = ll_sizeof_serialized_core m d ∧
    ll_sizeof_serialized_core m d
      = m.size + 2 + d.countP (fun b => isControl m b) :=
  ⟨serialize_core_length m d h, sizeof_core_eq m d h⟩

/-- Witness for `serialize_writes_sizeof` at a concrete configuration and payload. -/
theorem serialize_writes_sizeof_witness :
    ([243, 187] : List Nat).length = (⟨2, 170, 204, 187⟩ : ll_message_info_t).size ∧
    (ll_serialize_core ⟨2, 170, 204, 187⟩ [243, 187]).length
      = ll_sizeof_serialized_core ⟨2, 170, 204, 187⟩ [243, 187] ∧
    ll_sizeof_serialized_core ⟨2, 170, 204, 187⟩ [243, 187]
      = 2 + 2 + ([243, 187].countP (fun b => isControl ⟨2, 170, 204, 187⟩ b)) :=
  ⟨by decide, serialize_writes_sizeof ⟨2, 170, 204, 187⟩ [243, 187] (by decide)⟩

/-- Claim C8: the serialized size is at most `2 * message_size + 2`, with equality
exactly when every payload byte collides with a control byte. -/
theorem sizeof_redundancy_bound (m : ll_message_info_t) (d : List Nat)
    (h : d.length = m.size) :
    ll_sizeof_serialized_core m d ≤ 2 * m.size + 2 ∧
    (ll_sizeof_serialized_core m d = 2 * m.size + 2 ↔
      ∀ b ∈ d, isControl m b = true) := by
  rw [sizeof_core_eq m d h]
  have hle : d.countP (fun b => isControl m b) ≤ m.size := by
    calc d.countP (fun b => isControl m b) ≤ d.length := List.countP_le_length _
    _ = m.size := h
  constructor
  · omega
  · rw [show (m.size + 2 + d.countP (fun b => isControl m b) = 2 * m.size + 2) ↔
        (d.countP (fun b => isControl m b) = d.length) by omega]
    exact List.countP_eq_length

/-- Witness for `sizeof_redundancy_bound` at a concrete all-control payload. -/
theorem sizeof_redundancy_bound_witness :
    ([204, 170] : List Nat).length = (⟨2, 170, 204, 187⟩ : ll_message_info_t).size ∧
    ll_sizeof_serialized_core ⟨2, 170, 204, 187⟩ [204, 170] ≤ 2 * 2 + 2 ∧
    (ll_sizeof_serialized_core ⟨2, 170, 204, 187⟩ [204, 170] = 2 * 2 + 2 ↔
      ∀ b ∈ ([204, 170] : List Nat), isControl ⟨2, 170, 204, 187⟩ b = true) :=
  ⟨by decide, sizeof_redundancy_bound ⟨2, 170, 204, 187⟩ [204, 170] (by decide)⟩

/-- Claim C7: absent (null) arguments: `ll_deserialize` returns `LL_STATUS_BAD_PARAMS`
leaving `*remainder` and `data_out` untouched; `ll_sizeof_serialized` returns 0
on a null payload; `ll_serialize` writes nothing when either buffer is null. -/
theorem bad_params_leave_outputs_untouched (m : ll_message_info_t)
    (bs : Option (List Nat)) (dout rema : Bool) (din : Option (List Nat)) :
    (bs = none ∨ dout = false ∨ rema = false →
      ll_deserialize m bs dout rema = (.LL_STATUS_BAD_PARAMS, none, none)) ∧
    ll_sizeof_serialized m none = 0 ∧
    (din = none ∨ dout = false → ll_serialize m din dout = none) := by
  refine ⟨?_, rfl, ?_⟩
  · rintro (h | h | h) <;> subst h
    · cases dout <;> cases rema <;> rfl
    · cases bs <;> cases rema <;> rfl
    · cases bs <;> cases dout <;> rfl
  · rintro (h | h) <;> subst h
    · cases dout <;> rfl
    · cases din <;> rfl

/-- Witness for `bad_params_leave_outputs_untouched` at concrete arguments. -/
theorem bad_params_leave_outputs_untouched_witness :
    ll_deserialize ⟨2, 170, 204, 187⟩ none true true = (.LL_STATUS_BAD_PARAMS, none, none) ∧
    ll_sizeof_serialized ⟨2, 170, 204, 187⟩ none = 0 ∧
    ll_serialize ⟨2, 170, 204, 187⟩ none true = none :=
  ⟨(bad_params_leave_outputs_untouched ⟨2, 170, 204, 187⟩ none true true none).1 (Or.inl rfl),
   (bad_params_leave_outputs_untouched ⟨2, 170, 204, 187⟩ none true true none).2.1,
   (bad_params_leave_outputs_untouched ⟨2, 170, 204, 187⟩ none true true none).2.2 (Or.inl rfl)⟩


/-- Claim C3: when a frame is open with exactly `message_size` payload bytes
written and the byte at offset `i` is read, an `end_byte` completes the frame
with `LL_STATUS_SUCCESS` and remainder `i + 1` (0 when `i` is the last offset
of the window); any other byte gives `LL_STATUS_MESSAGE_TOO_LONG` with
remainder `i`. -/
theorem frame_close_step (m : ll_message_info_t) (s : ScanState) (b : Nat)
    (rest : List Nat) (i n : Nat)
    (hop : s.message_opened = true) (hit : s.message_iter = m.size)
    (hn : n = i + 1 + rest.length) :
    ll_deserialize_loop m n (b :: rest) i s =
      if b = m.end_byte then
        (.LL_STATUS_SUCCESS, if rest = [] then 0 else i + 1, s.out)
      else (.LL_STATUS_MESSAGE_TOO_LONG, i, s.out) := by
  simp only [ll_deserialize_loop, hop, hit, Bool.not_true, Bool.false_and,
    Bool.false_eq_true, if_false, beq_self_eq_true, if_true]
  by_cases hb : b = m.end_byte
  · subst hb
    simp only [beq_self_eq_true, if_true, if_pos rfl]
    cases rest with
    | nil =>
      simp only [List.length_nil] at hn
      have h1 : (i == n - 1) = true := by simp; omega
      simp [h1]
    | cons c t =>
      simp only [List.length_cons] at hn
      have h1 : (i == n - 1) = false := by simp; omega
      simp [h1]
  · have h1 : (b == m.end_byte) = false := by simp [hb]
    simp [h1, hb]

/-- Witness for `frame_close_step`: a full one-byte payload followed by
`end_byte` at the last offset of the window. -/
theorem frame_close_step_witness :
    ll_deserialize_loop ⟨1, 170, 204, 187⟩ 3 [187] 2 ⟨true, false, false, 1, 5, [7]⟩
      = (.LL_STATUS_SUCCESS, 0, [7]) := by
  have h := frame_close_step ⟨1, 170, 204, 187⟩ ⟨true, false, false, 1, 5, [7]⟩ 187 []
    2 3 rfl rfl (by decide)
  simpa using h


/-- Claim C4: when a frame is open with fewer than `message_size` payload
bytes written and an `end_byte` arrives while not escaped (the previous byte
was not `reject_byte`) and not mid-self-escape (`ignore_previous` clear), the
scan stops with `LL_STATUS_MESSAGE_TOO_SHORT` and remainder `i + 1`. -/
theorem premature_end_step (m : ll_message_info_t) (s : ScanState) (b : Nat)
    (rest : List Nat) (i n : Nat)
    (hop : s.message_opened = true) (hit : s.message_iter < m.size)
    (hb : b = m.end_byte) (hprev : s.byte ≠ m.reject_byte)
    (hip : s.ignore_previous = false) :
    ll_deserialize_loop m n (b :: rest) i s =
      (.LL_STATUS_MESSAGE_TOO_SHORT, i + 1, s.out) := by
  have hsz : (s.message_iter == m.size) = false := by simp; omega
  have hbe : (b == m.end_byte) = true := by simp [hb]
  have hpr : (s.byte != m.reject_byte) = true := by simp [hprev]
  have hlt : (decide (s.message_iter < m.size)) = true := by simp [hit]
  simp only [ll_deserialize_loop, hop, hit, Bool.not_true, Bool.false_and,
    Bool.false_eq_true, if_false, hsz, hbe, hpr, hlt, hip, Bool.not_false,
    Bool.true_and, Bool.and_true, Bool.and_self, decide_True, if_true]

/-- Witness for `premature_end_step`: a premature `end_byte` after one of two
expected payload bytes. -/
theorem premature_end_step_witness :
    ll_deserialize_loop ⟨2, 170, 204, 187⟩ 3 [187] 2 ⟨true, false, false, 1, 5, [7]⟩
      = (.LL_STATUS_MESSAGE_TOO_SHORT, 3, [7]) :=
  premature_end_step ⟨2, 170, 204, 187⟩ ⟨true, false, false, 1, 5, [7]⟩ 187 [] 2 3
    rfl (by decide) rfl (by decide) rfl


/-- The loop invariant of `ll_deserialize`: `message_iter` counts the bytes
written to `data_out`, never exceeds `message_size`, and an open frame has
consumed at least `message_iter + 1` bytes of the window (the opening
delimiter plus the partial payload); before any frame opens, nothing has
been written and no escape is pending. -/
def InvHyp (m : ll_message_info_t) (i : Nat) (s : ScanState) : Prop :=
  s.message_iter = s.out.length ∧
  s.message_iter ≤ m.size ∧
  (s.message_opened = true → s.message_iter + 1 ≤ i) ∧
  (s.message_opened = false → s.message_iter = 0 ∧ s.reject = false)

/-- What the invariant yields at every exit of the loop: the remainder is
bounded by the window size, at most `message_size` bytes were written, and in
the `NO_ENOUGH_BYTES` case the remainder arithmetic does not underflow. -/
def LoopConcl (m : ll_message_info_t) (n : Nat) (st : ll_status_t) (r : Nat)
    (out : List Nat) : Prop :=
  r ≤ n ∧ out.length ≤ m.size ∧
    (st = .LL_STATUS_NO_ENOUGH_BYTES → out.length + 1 ≤ n ∧ r = n - out.length - 1) ∧
    st ≠ .LL_STATUS_BAD_PARAMS

theorem ret_leaf {msize n : Nat} {ST st : ll_status_t} {R r : Nat} {O out : List Nat}
    (heq : (ST, R, O) = (st, r, out)) (hR : R ≤ n) (hO : O.length ≤ msize)
    (hne : ST ≠ ll_status_t.LL_STATUS_NO_ENOUGH_BYTES)
    (hnb : ST ≠ ll_status_t.LL_STATUS_BAD_PARAMS) :
    r ≤ n ∧ out.length ≤ msize ∧
      (st = .LL_STATUS_NO_ENOUGH_BYTES → out.length + 1 ≤ n ∧ r = n - out.length - 1) ∧
      st ≠ .LL_STATUS_BAD_PARAMS := by
  injection heq with ha hb
  injection hb with hb hc
  subst ha; subst hb; subst hc
  exact ⟨hR, hO, fun h => absurd h hne, hnb⟩

theorem loop_bounds_open_step (m : ll_message_info_t) (n : Nat) (b : Nat) (rest : List Nat)
    (ih : ∀ (i : Nat) (s : ScanState) (st : ll_status_t) (r : Nat) (out : List Nat),
      InvHyp m i s → i + rest.length = n →
      ll_deserialize_loop m n rest i s = (st, r, out) → LoopConcl m n st r out)
    (i : Nat) (s : ScanState) (st : ll_status_t) (r : Nat) (out : List Nat)
    (h1 : s.message_iter = s.out.length) (h2 : s.message_iter ≤ m.size)
    (hopi : s.message_iter + 1 ≤ i ∨
      (s.message_iter = 0 ∧ s.reject = false ∧ b = m.begin_byte))
    (h5 : i + 1 + rest.length = n)
    (heq :
      (if (s.message_iter == m.size) = true then
        if (b == m.end_byte) = true then
          (ll_status_t.LL_STATUS_SUCCESS, if (i == n - 1) = true then 0 else i + 1, s.out)
        else (ll_status_t.LL_STATUS_MESSAGE_TOO_LONG, i, s.out)
      else if (b == m.end_byte && s.byte != m.reject_byte
          && !s.ignore_previous && decide (s.message_iter < m.size)) = true then
        (ll_status_t.LL_STATUS_MESSAGE_TOO_SHORT, i + 1, s.out)
      else if (b != m.reject_byte && b != m.begin_byte && b != m.end_byte
            && s.byte != m.reject_byte
          || b != m.reject_byte && b != m.begin_byte && b != m.end_byte
            && s.ignore_previous) = true then
        ll_deserialize_loop m n rest (i + 1)
          { message_opened := true, reject := s.reject, ignore_previous := false,
            message_iter := s.message_iter + 1, byte := b, out := s.out ++ [b] }
      else if s.reject = true then
        ll_deserialize_loop m n rest (i + 1)
          { message_opened := true, reject := false,
            ignore_previous := if (b == m.reject_byte) = true then true else s.ignore_previous,
            message_iter := s.message_iter + 1, byte := b, out := s.out ++ [b] }
      else if (b == m.reject_byte && (s.byte != m.reject_byte || s.ignore_previous)) = true then
        ll_deserialize_loop m n rest (i + 1)
          { message_opened := true, reject := true, ignore_previous := false,
            message_iter := s.message_iter, byte := b, out := s.out }
      else
        ll_deserialize_loop m n rest (i + 1)
          { s with message_opened := true, byte := b }) = (st, r, out)) :
    LoopConcl m n st r out := by
  split at heq
  next hsz =>
    split at heq
    next hbe =>
      refine ret_leaf heq ?_ (by omega) (by decide) (by decide)
      split
      · omega
      · omega
    next hbe =>
      exact ret_leaf heq (by omega) (by omega) (by decide) (by decide)
  next hsz =>
    have hlt : s.message_iter < m.size := by
      simp only [beq_iff_eq] at hsz; omega
    split at heq
    next hts =>
      exact ret_leaf heq (by omega) (by omega) (by decide) (by decide)
    next hts =>
      split at heq
      next hlit =>
        have hbb : b ≠ m.begin_byte := by
          simp only [Bool.or_eq_true, Bool.and_eq_true, bne_iff_ne] at hlit
          rcases hlit with ⟨⟨⟨_, hbb⟩, _⟩, _⟩ | ⟨⟨⟨_, hbb⟩, _⟩, _⟩ <;> exact hbb
        have hup : s.message_iter + 1 ≤ i := by
          rcases hopi with h | ⟨_, _, hb⟩
          · exact h
          · exact absurd hb hbb
        refine ih (i + 1) _ st r out ⟨?_, ?_, ?_, ?_⟩ (by omega) heq
        · show s.message_iter + 1 = (s.out ++ [b]).length
          simp [h1]
        · show s.message_iter + 1 ≤ m.size
          omega
        · intro _
          show s.message_iter + 1 + 1 ≤ i + 1
          omega
        · intro h
          simp at h
      next hlit =>
        split at heq
        next hrj =>
          have hup : s.message_iter + 1 ≤ i := by
            rcases hopi with h | ⟨_, hrf, _⟩
            · exact h
            · rw [hrj] at hrf; exact absurd hrf (by decide)
          refine ih (i + 1) _ st r out ⟨?_, ?_, ?_, ?_⟩ (by omega) heq
          · show s.message_iter + 1 = (s.out ++ [b]).length
            simp [h1]
          · show s.message_iter + 1 ≤ m.size
            omega
          · intro _
            show s.message_iter + 1 + 1 ≤ i + 1
            omega
          · intro h
            simp at h
        next hrj =>
          have hi : s.message_iter ≤ i := by
            rcases hopi with h | ⟨h0, _, _⟩ <;> omega
          split at heq
          next htr =>
            refine ih (i + 1) _ st r out ⟨?_, ?_, ?_, ?_⟩ (by omega) heq
            · exact h1
            · exact h2
            · intro _
              show s.message_iter + 1 ≤ i + 1
              omega
            · intro h
              simp at h
          next htr =>
            refine ih (i + 1) _ st r out ⟨?_, ?_, ?_, ?_⟩ (by omega) heq
            · exact h1
            · exact h2
            · intro _
              show s.message_iter + 1 ≤ i + 1
              omega
            · intro h
              simp at h

theorem loop_bounds (m : ll_message_info_t) (n : Nat) :
    ∀ (rem : List Nat) (i : Nat) (s : ScanState) (st : ll_status_t) (r : Nat)
      (out : List Nat),
      InvHyp m i s → i + rem.length = n →
      ll_deserialize_loop m n rem i s = (st, r, out) → LoopConcl m n st r out := by
  intro rem
  induction rem with
  | nil =>
    intro i s st r out hinv h5 heq
    obtain ⟨h1, h2, h3, h4⟩ := hinv
    simp only [List.length_nil, Nat.add_zero] at h5
    simp only [ll_deserialize_loop] at heq
    by_cases hop : s.message_opened = true
    · rw [if_pos hop] at heq
      injection heq with ha hb
      injection hb with hb hc
      subst ha; subst hb; subst hc
      have := h3 hop
      exact ⟨by omega, by omega, fun _ => ⟨by omega, by omega⟩, by decide⟩
    · rw [if_neg hop] at heq
      exact ret_leaf heq (by omega) (by omega) (by decide) (by decide)
  | cons b rest ih =>
    intro i s st r out hinv h5 heq
    obtain ⟨h1, h2, h3, h4⟩ := hinv
    simp only [List.length_cons] at h5
    simp only [ll_deserialize_loop] at heq
    by_cases hsop : s.message_opened = true
    · have hmo : (if (!s.message_opened && b == m.begin_byte
          && s.byte != m.reject_byte) = true then true else s.message_opened) = true := by
        rw [hsop]; simp
      rw [hmo] at heq
      simp only [Bool.not_true, Bool.false_eq_true, if_false] at heq
      exact loop_bounds_open_step m n b rest ih i s st r out h1 h2
        (Or.inl (h3 hsop)) (by omega) heq
    · have hsop' : s.message_opened = false := by
        revert hsop
        cases s.message_opened
        · intro _; rfl
        · intro h; exact absurd rfl h
      obtain ⟨h40, h4r⟩ := h4 hsop'
      by_cases hoc : (b == m.begin_byte && s.byte != m.reject_byte) = true
      · have hmo : (if (!s.message_opened && b == m.begin_byte
            && s.byte != m.reject_byte) = true then true else s.message_opened) = true := by
          rw [hsop']
          rw [if_pos]
          simp only [Bool.not_false, Bool.true_and]
          exact hoc
        rw [hmo] at heq
        simp only [Bool.not_true, Bool.false_eq_true, if_false] at heq
        have hbb : b = m.begin_byte := by
          simp only [Bool.and_eq_true, beq_iff_eq] at hoc
          exact hoc.1
        exact loop_bounds_open_step m n b rest ih i s st r out h1 h2
          (Or.inr ⟨h40, h4r, hbb⟩) (by omega) heq
      · have hcond : ¬((!s.message_opened && b == m.begin_byte
            && s.byte != m.reject_byte) = true) := by
          intro hc
          rw [hsop'] at hc
          simp only [Bool.not_false, Bool.true_and] at hc
          exact hoc hc
        have hmo : (if (!s.message_opened && b == m.begin_byte
            && s.byte != m.reject_byte) = true then true else s.message_opened) = false := by
          rw [if_neg hcond]
          exact hsop'
        rw [hmo] at heq
        simp only [Bool.not_false, if_true] at heq
        refine ih (i + 1) _ st r out ⟨?_, ?_, ?_, ?_⟩ (by omega) heq
        · exact h1
        · exact h2
        · intro h
          simp at h
        · intro _
          exact ⟨h40, h4r⟩


theorem initState_inv (m : ll_message_info_t) : InvHyp m 0 (initState m) := by
  refine ⟨rfl, Nat.zero_le _, ?_, fun _ => ⟨rfl, rfl⟩⟩
  intro h
  simp [initState] at h

theorem run_loop_concl (m : ll_message_info_t) (w : List Nat) (st : ll_status_t)
    (r : Nat) (out : List Nat) (h : ll_deserialize_run m w = (st, r, out)) :
    LoopConcl m w.length st r out :=
  loop_bounds m w.length w 0 (initState m) st r out (initState_inv m) (by simp) h

/-- Claim C5: reaching the end of the window with a frame still open yields
`LL_STATUS_NO_ENOUGH_BYTES` with remainder `window_size - message_iter - 1`,
where `message_iter` (the number of payload bytes decoded so far) equals the
number of bytes written to `data_out`; the subtraction is exact because the
open frame consumed at least `message_iter + 1` bytes of the window. -/
theorem no_enough_bytes_remainder (m : ll_message_info_t) (w : List Nat)
    (r : Nat) (out : List Nat)
    (h : ll_deserialize_run m w = (.LL_STATUS_NO_ENOUGH_BYTES, r, out)) :
    r = w.length - out.length - 1 ∧ out.length + 1 ≤ w.length := by
  obtain ⟨-, -, h3, -⟩ := run_loop_concl m w _ r out h
  obtain ⟨ha, hb⟩ := h3 rfl
  exact ⟨hb, ha⟩

/-- Witness for `no_enough_bytes_remainder` at a concrete truncated frame. -/
theorem no_enough_bytes_remainder_witness :
    ll_deserialize_run ⟨2, 170, 204, 187⟩ [170, 243]
      = (.LL_STATUS_NO_ENOUGH_BYTES, 0, [243]) ∧
    (0 = [170, 243].length - [243].length - 1 ∧ [243].length + 1 ≤ [170, 243].length) :=
  ⟨by decide, no_enough_bytes_remainder ⟨2, 170, 204, 187⟩ [170, 243] 0 [243] (by decide)⟩

/-- Claim C9: over a whole scan, `ll_deserialize` writes at most `message_size`
bytes into `data_out`; writes are sequential (`data_out[message_iter++]`), so
every write lands at an index strictly below `message_size` and a buffer of
exactly `message_size` bytes is never overrun. -/
theorem data_out_never_overrun (m : ll_message_info_t) (w : List Nat) :
    (ll_deserialize_run m w).2.2.length ≤ m.size := by
  obtain ⟨-, h2, -, -⟩ := run_loop_concl m w (ll_deserialize_run m w).1
    (ll_deserialize_run m w).2.1 (ll_deserialize_run m w).2.2 rfl
  exact h2

/-- Claim C10: when `ll_deserialize` is given all its buffers (so does not return
`LL_STATUS_BAD_PARAMS`), the stored remainder never exceeds the window size,
and in the `LL_STATUS_NO_ENOUGH_BYTES` branch `byte_stream_size - message_iter - 1`
does not underflow: an open frame guarantees `message_iter + 1` consumed bytes. -/
theorem remainder_le_window (m : ll_message_info_t) (bs : List Nat)
    (st : ll_status_t) (r : Nat) (out : List Nat)
    (h : ll_deserialize m (some bs) true true = (st, some r, some out)) :
    st ≠ .LL_STATUS_BAD_PARAMS ∧ r ≤ bs.length ∧
      (st = .LL_STATUS_NO_ENOUGH_BYTES →
        out.length + 1 ≤ bs.length ∧ r = bs.length - out.length - 1) := by
  simp only [ll_deserialize] at h
  injection h with ha hb
  injection hb with hb hc
  injection hb with hb
  injection hc with hc
  have hrun : ll_deserialize_run m bs = (st, r, out) := by
    rw [← ha, ← hb, ← hc]
  obtain ⟨h1, -, h3, h4⟩ := run_loop_concl m bs st r out hrun
  exact ⟨h4, h1, h3⟩

/-- Witness for `remainder_le_window` at a concrete truncated frame. -/
theorem remainder_le_window_witness :
    ll_deserialize ⟨2, 170, 204, 187⟩ (some [170, 243]) true true
      = (.LL_STATUS_NO_ENOUGH_BYTES, some 0, some [243]) ∧
    ((.LL_STATUS_NO_ENOUGH_BYTES : ll_status_t) ≠ .LL_STATUS_BAD_PARAMS ∧
      0 ≤ [170, 243].length ∧
      ((.LL_STATUS_NO_ENOUGH_BYTES : ll_status_t) = .LL_STATUS_NO_ENOUGH_BYTES →
        [243].length + 1 ≤ [170, 243].length ∧
        0 = [170, 243].length - [243].length - 1)) :=
  ⟨by decide,
   remainder_le_window ⟨2, 170, 204, 187⟩ [170, 243] .LL_STATUS_NO_ENOUGH_BYTES 0 [243]
     (by decide)⟩


theorem roundtrip_loop (m : ll_message_info_t) (hd : DistinctControls m) (n : Nat) :
    ∀ (P acc : List Nat) (prev : Nat) (ip : Bool) (i : Nat),
      acc.length + P.length = m.size →
      i + (wirePayload m P).length + 1 = n →
      ((prev ≠ m.reject_byte ∧ ip = false) ∨ (prev = m.reject_byte ∧ ip = true)) →
      ll_deserialize_loop m n (wirePayload m P ++ [m.end_byte]) i
        ⟨true, false, ip, acc.length, prev, acc⟩
      = (.LL_STATUS_SUCCESS, 0, acc ++ P) := by
  intro P
  induction P with
  | nil =>
    intro acc prev ip i hlen hn hbd
    simp only [List.length_nil, Nat.add_zero] at hlen
    simp only [wirePayload, List.flatMap_nil, List.length_nil, Nat.add_zero] at hn ⊢
    have hsz : (acc.length == m.size) = true := by simp [hlen]
    have hin : (i == n - 1) = true := by simp; omega
    simp [ll_deserialize_loop, hsz, hin]
  | cons b P' ih =>
    intro acc prev ip i hlen hn hbd
    obtain ⟨h1, h2, h3⟩ := hd
    simp only [List.length_cons] at hlen
    have hsz : (acc.length == m.size) = false := by simp; omega
    by_cases hb : isControl m b = true
    · -- escaped byte: wire form is reject_byte :: b
      have hwp : wirePayload m (b :: P') = m.reject_byte :: b :: wirePayload m P' := by
        simp [wirePayload, escapeByte, hb]
      rw [hwp] at hn ⊢
      simp only [List.length_cons] at hn
      have hre : (m.reject_byte == m.end_byte) = false := by
        simp
        exact fun hc => h3 hc.symm
      simp only [ll_deserialize_loop, List.cons_append, Bool.not_true, Bool.false_and,
        Bool.false_eq_true, if_false, hsz, hre, bne_self_eq_false, Bool.and_false,
        Bool.false_or, Bool.and_true, if_true, beq_self_eq_true, Bool.true_and]
      by_cases hbr : b = m.reject_byte
      · have hl : (acc ++ [b]).length = acc.length + 1 := by simp
        have := ih (acc ++ [b]) b true (i + 1 + 1) (by simp; omega) (by omega)
          (Or.inr ⟨hbr, rfl⟩)
        rw [hl] at this
        rcases hbd with ⟨hp, hip⟩ | ⟨hp, hip⟩ <;> simpa [hbr, hp, hip] using this
      · have hl : (acc ++ [b]).length = acc.length + 1 := by simp
        have := ih (acc ++ [b]) b false (i + 1 + 1) (by simp; omega) (by omega)
          (Or.inl ⟨hbr, rfl⟩)
        rw [hl] at this
        have hbrf : (b == m.reject_byte) = false := by simp [hbr]
        rcases hbd with ⟨hp, hip⟩ | ⟨hp, hip⟩ <;> simpa [hbrf, hp, hip] using this
    · -- plain byte: wire form is b itself, written via the literal branch
      have hbf : isControl m b = false := by
        revert hb
        cases isControl m b
        · intro _; rfl
        · intro h; exact absurd rfl h
      simp only [isControl, Bool.or_eq_false_iff, beq_eq_false_iff_ne] at hbf
      obtain ⟨⟨hbb, hbe⟩, hbr⟩ := hbf
      have hwp : wirePayload m (b :: P') = b :: wirePayload m P' := by
        simp [wirePayload, escapeByte, hb]
      rw [hwp] at hn ⊢
      simp only [List.length_cons] at hn
      have hbef : (b == m.end_byte) = false := by simp [hbe]
      simp only [ll_deserialize_loop, List.cons_append, Bool.not_true, Bool.false_and,
        Bool.false_eq_true, if_false, hsz, hbef, Bool.and_true, Bool.true_and]
      have hl : (acc ++ [b]).length = acc.length + 1 := by simp
      have := ih (acc ++ [b]) b false (i + 1) (by simp; omega) (by omega)
        (Or.inl ⟨hbr, rfl⟩)
      rw [hl] at this
      rcases hbd with ⟨hp, hip⟩ | ⟨hp, hip⟩ <;> simpa [hbb, hbe, hbr, hp, hip] using this


/-- Claim C1 (amended to `1 ≤ message_size`): with mutually distinct control bytes
and a payload of exactly `message_size ≥ 1` bytes, deserializing the exact
serializer output (whose length is `ll_sizeof_serialized`) succeeds, returns
the payload unchanged, and sets the remainder to 0. -/
theorem ll_round_trip (m : ll_message_info_t) (hd : DistinctControls m)
    (hs : 1 ≤ m.size) (P : List Nat) (hP : P.length = m.size) :
    (ll_serialize_core m P).length = ll_sizeof_serialized_core m P ∧
    ll_deserialize_run m (ll_serialize_core m P) = (.LL_STATUS_SUCCESS, 0, P) := by
  refine ⟨serialize_core_length m P hP, ?_⟩
  obtain ⟨h1, h2, h3⟩ := hd
  rw [serialize_core_eq m P hP]
  unfold ll_deserialize_run
  have hn : (m.begin_byte :: (wirePayload m P ++ [m.end_byte])).length
      = (wirePayload m P).length + 2 := by simp
  rw [hn]
  have her : (m.end_byte != m.reject_byte) = true := by simp [h3]
  have hbe : (m.begin_byte == m.end_byte) = false := by simp [h1]
  have hbrj : (m.begin_byte == m.reject_byte) = false := by simp [h2]
  have hsz0 : ((0 : Nat) == m.size) = false := by simp; omega
  simp only [ll_deserialize_loop, initState, Bool.not_false, Bool.true_and,
    beq_self_eq_true, her, Bool.and_true, if_true, Bool.not_true, Bool.false_eq_true,
    if_false, hsz0, hbe, hbrj, Bool.false_and, bne_self_eq_false, Bool.and_false,
    Bool.false_or]
  have := roundtrip_loop m ⟨h1, h2, h3⟩ ((wirePayload m P).length + 2) P []
    m.begin_byte false 1 (by simpa using hP) (by omega) (Or.inl ⟨h2, rfl⟩)
  simpa using this

/-- Witness for `ll_round_trip` at the configuration of the header's example 2
restricted to a 2-byte payload containing an escaped `end_byte`. -/
theorem ll_round_trip_witness :
    DistinctControls ⟨2, 170, 204, 187⟩ ∧ 1 ≤ 2 ∧ ([243, 187] : List Nat).length = 2 ∧
    ((ll_serialize_core ⟨2, 170, 204, 187⟩ [243, 187]).length
        = ll_sizeof_serialized_core ⟨2, 170, 204, 187⟩ [243, 187] ∧
      ll_deserialize_run ⟨2, 170, 204, 187⟩ (ll_serialize_core ⟨2, 170, 204, 187⟩ [243, 187])
        = (.LL_STATUS_SUCCESS, 0, [243, 187])) :=
  ⟨by decide, by decide, by decide,
   ll_round_trip ⟨2, 170, 204, 187⟩ (by decide) (by decide) [243, 187] (by decide)⟩

/-- Counterexample to C1 as stated: with `message_size = 0` (and distinct
control bytes 0, 1, 2) the serializer emits `[begin_byte, end_byte]`, but
deserializing that frame returns `LL_STATUS_MESSAGE_TOO_LONG` (the opening
byte itself is tested against `end_byte` in the `message_iter == size`
branch), not `LL_STATUS_SUCCESS`. -/
theorem ll_round_trip_size_zero_cex :
    DistinctControls ⟨0, 0, 2, 1⟩ ∧ ([] : List Nat).length = (0 : Nat) ∧
    ll_deserialize_run ⟨0, 0, 2, 1⟩ (ll_serialize_core ⟨0, 0, 2, 1⟩ [])
      = (.LL_STATUS_MESSAGE_TOO_LONG, 0, []) ∧
    ll_deserialize_run ⟨0, 0, 2, 1⟩ (ll_serialize_core ⟨0, 0, 2, 1⟩ [])
      ≠ (.LL_STATUS_SUCCESS, 0, []) := by
  decide

/-- Claim C6 of the spec fails on the code: the resumability bug. Configuration `size = 2`, begin 170 (0xAA),
reject 204 (0xCC), end 187 (0xBB); window `W = [170, 204, 204, 5, 187]`
(a complete frame whose first payload byte 204 is self-escaped on the wire).
Scanning the prefix `W[0..3)` stops mid-frame with `LL_STATUS_NO_ENOUGH_BYTES`
and remainder 1, but resuming from offset 1 never sees `begin_byte` again and
yields `LL_STATUS_NO_MESSAGE` with no payload, whereas the unsplit window
decodes the frame: resuming from the remainder loses the message. The header
documents the remainder of this case as the position of the start byte of the
uncompleted message, which here is 0, not 1. -/
theorem resume_after_no_enough_bytes_loses_frame :
    ll_deserialize_run ⟨2, 170, 204, 187⟩ ([170, 204, 204, 5, 187].take 3)
      = (.LL_STATUS_NO_ENOUGH_BYTES, 1, [204]) ∧
    ll_deserialize_run ⟨2, 170, 204, 187⟩ ([170, 204, 204, 5, 187].drop 1)
      = (.LL_STATUS_NO_MESSAGE, 4, []) ∧
    ll_deserialize_run ⟨2, 170, 204, 187⟩ [170, 204, 204, 5, 187]
      = (.LL_STATUS_SUCCESS, 0, [204, 5]) ∧
    (.LL_STATUS_NO_MESSAGE : ll_status_t) ≠ .LL_STATUS_SUCCESS := by
  decide

end LLProtocol
